import Mathlib

/-!
Shallow embedding of the `data-pipeline` core of the `stock-researcher`
repository: the two reference-series extractors (`load_excel_max_close` in
`validate_correct.py` and in `full_validation.py`), the value comparators
(`compare_values` in `validate_data.py`, the per-row classification inside
both `validate_ticker` functions), the inner-join / verdict logic of both
`validate_ticker` functions, and the monthly rollup `aggregate_to_monthly`
of `fetch_historical.py`.

Modelling conventions:
* Machine floats are modelled by `ℚ`; pandas' non-signalling float special
  values (NaN from `0/0`, +inf from `x/0` with `x > 0`) are modelled by the
  explicit `PVal` type where they arise (`pct_diff` columns).
* A spreadsheet cell is either empty (pandas NaN), a number, or a piece of
  non-numeric text (Python `float` applied to such text raises `ValueError`;
  the repository's own marker cell is the text `Grand Total`).
* A grid is a list of rows of cells. A row's cells beyond its length are
  empty; this models the frame produced by `pd.read_excel(header=None)` for
  the reference workbooks, whose width (18 columns) exceeds the 12 month
  columns that the extractors address.
* Fallible Python code (an expression that can raise) is embedded in
  `Except String`.
-/

/-- A spreadsheet cell as seen through `pd.read_excel(header=None)`:
empty/NaN, a numeric value, or non-numeric text. -/
inductive Cell where
  | nan : Cell
  | num : ℚ → Cell
  | text : String → Cell
deriving DecidableEq

/-- One grid row. -/
abbrev Row := List Cell

/-- Cell lookup `row[i]`; positions beyond the row's length are empty. -/
def getCell (r : Row) (i : Nat) : Cell := r.getD i Cell.nan

/-- Whitespace as recognised by Python `str.strip`. -/
def isWsChar (c : Char) : Bool :=
  c == ' ' || c == '\t' || c == '\n' || c == '\r'

/-- Drop leading and trailing whitespace from a character list. -/
def stripChars (l : List Char) : List Char :=
  ((l.dropWhile isWsChar).reverse.dropWhile isWsChar).reverse

/-- Python `str.strip()`. -/
def pyStrip (s : String) : String := String.mk (stripChars s.data)

/-- Python `int(x)` on a rational: truncation toward zero. -/
def truncQ (q : ℚ) : Int := if 0 ≤ q then ⌊q⌋ else ⌈q⌉

/-- Test for `Cell.num`. -/
def Cell.isNum : Cell → Bool
  | Cell.num _ => true
  | _ => false

/-- The year-row test of both extractors:
`isinstance(first_val, (int, float)) and 1980 <= first_val <= 2030`.
An empty cell (NaN) fails the chained comparison, text fails `isinstance`. -/
def isYearCell : Cell → Bool
  | Cell.num q => decide (1980 ≤ q ∧ q ≤ 2030)
  | _ => false

/-- The year taken from a year row, `int(first_val)`; junk value 0 on cells
that never pass `isYearCell`. -/
def yearOfCell : Cell → Int
  | Cell.num q => truncQ q
  | _ => 0

/-- The terminator test `str(first_val).strip() == 'Grand Total'` of
`validate_correct.load_excel_max_close`. `str()` of a number or of NaN
renders as digits or `nan` and never equals the marker, so only text cells
can pass. -/
def isTermCell : Cell → Bool
  | Cell.text s => pyStrip s == "Grand Total"
  | _ => false

/-- One extracted reference record `{'year': ..., 'month': ...,
'close_max_excel': ...}`. -/
structure RefRecord where
  year : Int
  month : Nat
  close_max_excel : ℚ
deriving DecidableEq

/-- The inner month loop of `validate_correct.load_excel_max_close`: for
`month in range(1, 13)`, emit `row[month]` when it is present and numeric
(`pd.notna(value) and isinstance(value, (int, float))`), skip otherwise. -/
def emitYear (year : Int) (row : Row) : List RefRecord :=
  (List.range 12).filterMap fun i =>
    match getCell row (i + 1) with
    | Cell.num q => some ⟨year, i + 1, q⟩
    | _ => none

/-- The row scan of `validate_correct.load_excel_max_close`: the boolean
argument is `in_data_section`. A year row emits its months and sets the
flag; otherwise, once the flag is set, a terminator row stops the whole
scan (`break`); any other row is skipped. -/
def loadCorrectAux : Bool → List Row → List RefRecord
  | _, [] => []
  | inSec, r :: rs =>
    if isYearCell (getCell r 0) then
      emitYear (yearOfCell (getCell r 0)) r ++ loadCorrectAux true rs
    else if inSec && isTermCell (getCell r 0) then []
    else loadCorrectAux inSec rs

/-- `load_excel_max_close` of `validate_correct.py` (lines 12-49). -/
def load_excel_max_close_correct (g : List Row) : List RefRecord :=
  loadCorrectAux false g

/-- The message of the `ValueError` raised by Python `float` on
non-numeric text. -/
def floatErrMsg (s : String) : String :=
  "could not convert string to float: " ++ s

/-- The month positions `1..12` visited by `enumerate(row[1:13], 1)`. -/
def monthIdxs : List Nat := List.range' 1 12

/-- The inner month loop of `full_validation.load_excel_max_close`: every
cell that is not NaN is passed to `float(value)`, which raises on
non-numeric text. -/
def emitMonthsFull (year : Int) (row : Row) : List Nat → Except String (List RefRecord)
  | [] => Except.ok []
  | m :: ms =>
    match getCell row m with
    | Cell.nan => emitMonthsFull year row ms
    | Cell.num q =>
      match emitMonthsFull year row ms with
      | Except.ok l => Except.ok (⟨year, m, q⟩ :: l)
      | Except.error e => Except.error e
    | Cell.text s => Except.error (floatErrMsg s)

/-- The row scan of `full_validation.load_excel_max_close` (lines 12-32):
identical year-row test, but no terminator handling at all — every year
row of the whole grid is read. -/
def loadFullAux : List Row → Except String (List RefRecord)
  | [] => Except.ok []
  | r :: rs =>
    if isYearCell (getCell r 0) then
      match emitMonthsFull (yearOfCell (getCell r 0)) r monthIdxs, loadFullAux rs with
      | Except.ok xs, Except.ok ys => Except.ok (xs ++ ys)
      | Except.error e, _ => Except.error e
      | Except.ok _, Except.error e => Except.error e
    else loadFullAux rs

/-- `load_excel_max_close` of `full_validation.py` (lines 12-32). -/
def load_excel_max_close_full (g : List Row) : Except String (List RefRecord) :=
  loadFullAux g

/-- A pandas float expression that may be NaN or +inf: the values taken by
the `pct_diff` column. -/
inductive PVal where
  | num : ℚ → PVal
  | nan : PVal
  | posInf : PVal
deriving DecidableEq

/-- IEEE comparison `v < t` of a `pct_diff` entry with a literal: false on
NaN and on +inf. -/
def pvalLt (v : PVal) (t : ℚ) : Bool :=
  match v with
  | PVal.num q => decide (q < t)
  | _ => false

/-- The `pct_diff` column of both `validate_ticker` functions:
`abs(close_max - close_max_excel) / close_max_excel * 100` under pandas
float semantics, where a zero denominator yields NaN (`0/0`) or +inf
(`x/0`, `x > 0`) instead of raising. -/
def pct_diff_pandas (c e : ℚ) : PVal :=
  if e = 0 then (if |c - e| = 0 then PVal.nan else PVal.posInf)
  else PVal.num (|c - e| / e * 100)

/-- `compare_values` of `validate_data.py` (lines 57-66): `None` when
either side is NaN, the zero-reference special case, else
`pct_diff <= tolerance`. -/
def compare_values (excel_val fetched_val : Option ℚ) (tolerance : ℚ) : Option Bool :=
  match excel_val, fetched_val with
  | none, _ => none
  | some _, none => none
  | some e, some f =>
    if e = 0 then some (decide (f = 0))
    else some (decide (|e - f| / |e| ≤ tolerance))

/-- One row of the fetched monthly frame restricted to
`['year', 'month', 'close_max']`. -/
structure MRec where
  year : Int
  month : Nat
  close_max : ℚ
deriving DecidableEq

/-- The `pd.merge(..., on=['year', 'month'], how='inner')` of both
`validate_ticker` functions, keeping the `(close_max, close_max_excel)`
pairs in left-then-right order. -/
def innerJoin (ours : List MRec) (excel : List RefRecord) : List (ℚ × ℚ) :=
  (ours.map fun o =>
    (excel.filter fun e => e.year == o.year && e.month == o.month).map
      fun e => (o.close_max, e.close_max_excel)).flatten

/-- Classification of one joined row: `pct_diff < tol` (tolerance given in
percent). -/
def tolMatchB (tol : ℚ) (p : ℚ × ℚ) : Bool :=
  pvalLt (pct_diff_pandas p.1 p.2) tol

/-- `matches = (merged['pct_diff'] < tol).sum()`. -/
def matchCount (rows : List (ℚ × ℚ)) (tol : ℚ) : Nat :=
  (rows.filter (tolMatchB tol)).length

/-- `match_pct = matches / total * 100`. -/
def matchPct (rows : List (ℚ × ℚ)) (tol : ℚ) : ℚ :=
  (matchCount rows tol : ℚ) / (rows.length : ℚ) * 100

/-- The result dictionary of a `validate_ticker` call: `status`, the
match count (the source's `matches` key — a reserved word here, hence
`matched`), and `total`. -/
structure TickerResult where
  status : String
  matched : Nat
  total : Nat
deriving DecidableEq

/-- `validate_ticker` of `full_validation.py` (lines 35-98): tolerance
0.1 (percent), empty-join status `NO_MATCH`, pass threshold 99, failing
status `FAIL`. -/
def validate_ticker_full (ours : List MRec) (excel : List RefRecord) : TickerResult :=
  if innerJoin ours excel = [] then ⟨"NO_MATCH", 0, 0⟩
  else
    ⟨(if matchPct (innerJoin ours excel) (1/10) ≥ 99 then "PASS" else "FAIL"),
     matchCount (innerJoin ours excel) (1/10),
     (innerJoin ours excel).length⟩

/-- `validate_ticker` of `validate_correct.py` (lines 52-116): tolerance
1.0 (percent), empty-join status `NO_OVERLAP`, pass threshold 95, failing
status `CHECK`. -/
def validate_ticker_correct (ours : List MRec) (excel : List RefRecord) : TickerResult :=
  if innerJoin ours excel = [] then ⟨"NO_OVERLAP", 0, 0⟩
  else
    ⟨(if matchPct (innerJoin ours excel) 1 ≥ 95 then "PASS" else "CHECK"),
     matchCount (innerJoin ours excel) 1,
     (innerJoin ours excel).length⟩

/-- A calendar date. -/
structure SimpleDate where
  year : Int
  month : Nat
  day : Nat
deriving DecidableEq

/-- Chronological order on dates (lexicographic year, month, day). -/
def dateLeB (a b : SimpleDate) : Bool :=
  decide (a.year < b.year ∨ (a.year = b.year ∧
    (a.month < b.month ∨ (a.month = b.month ∧ a.day ≤ b.day))))

/-- One fetched daily OHLCV bar (`open` is a Lean keyword, hence
`open_`). -/
structure DailyBar where
  ticker : String
  date : SimpleDate
  open_ : ℚ
  high : ℚ
  low : ℚ
  close : ℚ
  volume : Int
deriving DecidableEq

/-- The grouping key `['ticker', 'year', 'month']` of
`aggregate_to_monthly`. -/
def barKey (b : DailyBar) : String × Int × Nat :=
  (b.ticker, b.date.year, b.date.month)

/-- The bars of one group, in input order: pandas `groupby` preserves the
original row order inside each group and performs no sorting. -/
def groupBars (bars : List DailyBar) (k : String × Int × Nat) : List DailyBar :=
  bars.filter fun x => decide (barKey x = k)

/-- One monthly output row of `aggregate_to_monthly`
(`fetch_historical.py` lines 160-190), after column flattening. -/
structure MonthlyAggregate where
  ticker : String
  year : Int
  month : Nat
  open_first : ℚ
  high_max : ℚ
  low_min : ℚ
  close_max : ℚ
  close_last : ℚ
  volume_total : Int
  trading_days : Nat
deriving DecidableEq

/-- The simultaneous per-group reductions of `aggregate_to_monthly`:
`first`, `max`, `min`, `max`/`last`, `sum`, `count`, applied to a group
given as first bar plus remaining bars in input order. -/
def reduceGroup (b : DailyBar) (rest : List DailyBar) : MonthlyAggregate :=
  ⟨b.ticker, b.date.year, b.date.month,
   b.open_,
   (rest.map fun x => x.high).foldl max b.high,
   (rest.map fun x => x.low).foldl min b.low,
   (rest.map fun x => x.close).foldl max b.close,
   (rest.getLastD b).close,
   ((b :: rest).map fun x => x.volume).sum,
   rest.length + 1⟩

/-- The aggregate row for one key, when the key has bars. -/
def monthlyFor (bars : List DailyBar) (k : String × Int × Nat) : Option MonthlyAggregate :=
  match groupBars bars k with
  | [] => none
  | b :: rest => some (reduceGroup b rest)

/-- `aggregate_to_monthly` of `fetch_historical.py` (lines 160-190): one
output row per distinct `(ticker, year, month)` key present in the input.
Pandas emits the rows sorted by key; here they are kept in key-discovery
order, which affects no per-row property. -/
def aggregate_to_monthly (bars : List DailyBar) : List MonthlyAggregate :=
  ((bars.map barKey).dedup).filterMap (monthlyFor bars)

/-- The key of a produced monthly row. -/
def aggKey (a : MonthlyAggregate) : String × Int × Nat :=
  (a.ticker, a.year, a.month)

/-! Concrete fixtures used by counterexamples and witnesses. -/

/-- The terminator marker text. -/
def gtStr : String := "Grand Total"

/-- A non-numeric text cell content. -/
def strA : String := "abc"

/-- A grid with two year-row sections separated by a terminator row:
the layout the spec's regression test describes. -/
def gTwoSections : List Row :=
  [[Cell.num 2000, Cell.num 5], [Cell.text gtStr], [Cell.num 2001, Cell.num 7]]

/-- First section of `gTwoSections`, as a scan prefix. -/
def preSection : List Row := [[Cell.num 2000, Cell.num 5]]

/-- The terminator row of `gTwoSections`. -/
def rowGT : Row := [Cell.text gtStr]

/-- The second section of `gTwoSections`. -/
def postSection : List Row := [[Cell.num 2001, Cell.num 7]]

/-- A grid whose year row carries text in month column 1 and a number in
month column 2. -/
def gTextCell : List Row := [[Cell.num 2000, Cell.text strA, Cell.num 5]]

/-- Four January 2020 trading days with closes 10, 12, 9, 15 — the
spec's end-to-end rollup example. -/
def bar1 : DailyBar := ⟨"AAPL", ⟨2020, 1, 2⟩, 10, 10, 10, 10, 100⟩

/-- Second bar of the example month. -/
def bar2 : DailyBar := ⟨"AAPL", ⟨2020, 1, 3⟩, 12, 12, 12, 12, 100⟩

/-- Third bar of the example month. -/
def bar3 : DailyBar := ⟨"AAPL", ⟨2020, 1, 6⟩, 9, 9, 9, 9, 100⟩

/-- Fourth bar of the example month. -/
def bar4 : DailyBar := ⟨"AAPL", ⟨2020, 1, 7⟩, 15, 15, 15, 15, 100⟩

/-- The example month, date-sorted. -/
def bars4 : List DailyBar := [bar1, bar2, bar3, bar4]

/-- The monthly aggregate the rollup produces from `bars4`. -/
def agg4 : MonthlyAggregate := ⟨"AAPL", 2020, 1, 10, 15, 9, 15, 15, 400, 4⟩

/-- January 2 bar, listed first in the unsorted fixture. -/
def bJan2 : DailyBar := ⟨"A", ⟨2020, 1, 2⟩, 20, 20, 20, 20, 0⟩

/-- January 1 bar, listed second in the unsorted fixture. -/
def bJan1 : DailyBar := ⟨"A", ⟨2020, 1, 1⟩, 10, 10, 10, 10, 0⟩

/-- A bar with every price positive but `close > high`: it satisfies the
price-positivity invariant while violating OHLC consistency. -/
def barBad : DailyBar := ⟨"A", ⟨2020, 1, 2⟩, 1, 5, 1, 10, 0⟩

/-! General lemmas about folds, groups and the extractors. -/

/-- The seed bounds a `foldl max` from below. -/
theorem le_foldl_max : ∀ (l : List ℚ) (i : ℚ), i ≤ l.foldl max i
  | [], _ => le_refl _
  | a :: l, i => le_trans (le_max_left i a) (le_foldl_max l (max i a))

/-- Every list element bounds a `foldl max` from below. -/
theorem mem_le_foldl_max : ∀ (l : List ℚ) (i x : ℚ), x ∈ l → x ≤ l.foldl max i
  | a :: l, i, x, hx => by
    rcases List.mem_cons.mp hx with h | h
    · subst h
      exact le_trans (le_max_right i x) (le_foldl_max l (max i x))
    · exact mem_le_foldl_max l (max i a) x h

/-- A `foldl max` is the seed or one of the list elements. -/
theorem foldl_max_cases : ∀ (l : List ℚ) (i : ℚ), l.foldl max i = i ∨ l.foldl max i ∈ l
  | [], _ => Or.inl rfl
  | a :: l, i => by
    rcases foldl_max_cases l (max i a) with h | h
    · rcases max_choice i a with hm | hm
      · exact Or.inl (by rw [List.foldl_cons, h, hm])
      · refine Or.inr ?_
        rw [List.foldl_cons, h, hm]
        exact List.mem_cons_self a l
    · exact Or.inr (List.mem_cons_of_mem a h)

/-- The seed bounds a `foldl min` from above. -/
theorem foldl_min_le : ∀ (l : List ℚ) (i : ℚ), l.foldl min i ≤ i
  | [], _ => le_refl _
  | a :: l, i => le_trans (foldl_min_le l (min i a)) (min_le_left i a)

/-- A `foldl min` bounds every list element from below. -/
theorem foldl_min_le_mem : ∀ (l : List ℚ) (i x : ℚ), x ∈ l → l.foldl min i ≤ x
  | a :: l, i, x, hx => by
    rcases List.mem_cons.mp hx with h | h
    · subst h
      exact le_trans (foldl_min_le l (min i x)) (min_le_right i x)
    · exact foldl_min_le_mem l (min i a) x h

/-- A `foldl min` is the seed or one of the list elements. -/
theorem foldl_min_cases : ∀ (l : List ℚ) (i : ℚ), l.foldl min i = i ∨ l.foldl min i ∈ l
  | [], _ => Or.inl rfl
  | a :: l, i => by
    rcases foldl_min_cases l (min i a) with h | h
    · rcases min_choice i a with hm | hm
      · exact Or.inl (by rw [List.foldl_cons, h, hm])
      · refine Or.inr ?_
        rw [List.foldl_cons, h, hm]
        exact List.mem_cons_self a l
    · exact Or.inr (List.mem_cons_of_mem a h)

/-- The key of a reduced group is the key of its first bar. -/
theorem aggKey_reduceGroup (b : DailyBar) (rest : List DailyBar) :
    aggKey (reduceGroup b rest) = barKey b := rfl

/-- Every produced monthly row is the reduction of its own (nonempty)
group, taken in input order. -/
theorem mem_aggregate (bars : List DailyBar) (a : MonthlyAggregate)
    (ha : a ∈ aggregate_to_monthly bars) :
    ∃ b rest, groupBars bars (aggKey a) = b :: rest ∧ a = reduceGroup b rest := by
  obtain ⟨k, _, hsome⟩ := List.mem_filterMap.mp ha
  cases hgrp : groupBars bars k with
  | nil => rw [monthlyFor, hgrp] at hsome; exact absurd hsome (by simp)
  | cons b rest =>
    rw [monthlyFor, hgrp] at hsome
    have haeq : a = reduceGroup b rest := by
      cases hsome
      rfl
    have hb : b ∈ groupBars bars k := by
      rw [hgrp]
      exact List.mem_cons_self b rest
    have hkey : barKey b = k :=
      of_decide_eq_true (List.mem_filter.mp hb).2
    have : aggKey a = k := by rw [haeq, aggKey_reduceGroup, hkey]
    rw [haeq] at *
    exact ⟨b, rest, by rw [this, hgrp], rfl⟩

/-- Members of a group are members of the input batch. -/
theorem mem_of_mem_groupBars {bars : List DailyBar} {k : String × Int × Nat}
    {x : DailyBar} (hx : x ∈ groupBars bars k) : x ∈ bars :=
  (List.mem_filter.mp hx).1

/-- Counting helper: filtering a `filterMap` over duplicate-free keys by
one key value keeps at most the one entry produced from that key. -/
theorem length_filter_filterMap_key {K A : Type} [DecidableEq K]
    (f : K → Option A) (g : A → K)
    (hf : ∀ k a, f k = some a → g a = k) (k : K) :
    ∀ l : List K, l.Nodup →
      ((l.filterMap f).filter fun a => decide (g a = k)).length =
        (if k ∈ l ∧ (f k).isSome then 1 else 0) := by
  intro l
  induction l with
  | nil => intro _; simp
  | cons x xs ih =>
    intro hnd
    rcases List.nodup_cons.mp hnd with ⟨hnx, hnd'⟩
    cases hfx : f x with
    | none =>
      rw [List.filterMap_cons_none hfx, ih hnd']
      by_cases hkx : k = x
      · subst hkx
        simp [hfx, hnx]
      · simp [hkx]
    | some a =>
      have hax : g a = x := hf x a hfx
      rw [List.filterMap_cons_some hfx]
      by_cases hkx : k = x
      · subst hkx
        have hd : decide (g a = k) = true := decide_eq_true hax
        simp [List.filter_cons, hd, ih hnd', hnx, hfx]
      · have hd : decide (g a = k) = false := by
          rw [hax]
          exact decide_eq_false fun h => hkx h.symm
        simp [List.filter_cons, hd, ih hnd', hkx]

/-- A key has an aggregate row exactly when it has bars. -/
theorem monthlyFor_isSome (bars : List DailyBar) (k : String × Int × Nat) :
    (monthlyFor bars k).isSome = true ↔ groupBars bars k ≠ [] := by
  rw [monthlyFor]
  cases hgrp : groupBars bars k <;> simp

/-- A key occurs among the input keys exactly when it has bars. -/
theorem mem_keys_iff (bars : List DailyBar) (k : String × Int × Nat) :
    k ∈ (bars.map barKey).dedup ↔ groupBars bars k ≠ [] := by
  rw [List.mem_dedup, List.mem_map]
  constructor
  · rintro ⟨b, hb, hk⟩ hnil
    have : b ∈ groupBars bars k :=
      List.mem_filter.mpr ⟨hb, decide_eq_true hk⟩
    rw [hnil] at this
    exact absurd this (List.not_mem_nil b)
  · intro hnil
    cases hgrp : groupBars bars k with
    | nil => exact absurd hgrp hnil
    | cons b rest =>
      have hb : b ∈ groupBars bars k := by
        rw [hgrp]
        exact List.mem_cons_self b rest
      exact ⟨b, mem_of_mem_groupBars hb, of_decide_eq_true (List.mem_filter.mp hb).2⟩

/-- A record emitted for one year row of the `validate_correct` extractor
carries that row's year, a month in 1..12, and the numeric content of the
month's cell. -/
theorem mem_emitYear {y : Int} {row : Row} {rec : RefRecord}
    (h : rec ∈ emitYear y row) :
    rec.year = y ∧ 1 ≤ rec.month ∧ rec.month ≤ 12 ∧
      getCell row rec.month = Cell.num rec.close_max_excel := by
  obtain ⟨i, hi, hsome⟩ := List.mem_filterMap.mp h
  have hi12 : i < 12 := List.mem_range.mp hi
  cases hc : getCell row (i + 1) with
  | num q =>
    rw [hc] at hsome
    cases Option.some.inj hsome
    exact ⟨rfl, Nat.succ_le_succ (Nat.zero_le i), hi12, hc⟩
  | nan =>
    rw [hc] at hsome
    cases hsome
  | text s =>
    rw [hc] at hsome
    cases hsome

/-- A cell passing the year-row test is numeric with value in
[1980, 2030]. -/
theorem isYearCell_spec {c : Cell} (h : isYearCell c = true) :
    ∃ q : ℚ, c = Cell.num q ∧ 1980 ≤ q ∧ q ≤ 2030 := by
  cases c with
  | num q => exact ⟨q, rfl, of_decide_eq_true h⟩
  | nan => exact absurd h (by simp [isYearCell])
  | text s => exact absurd h (by simp [isYearCell])

/-- Python `int` truncation keeps a value of [1980, 2030] inside
[1980, 2030]. -/
theorem truncQ_year_bounds {q : ℚ} (h1 : (1980:ℚ) ≤ q) (h2 : q ≤ 2030) :
    1980 ≤ truncQ q ∧ truncQ q ≤ 2030 := by
  have h0 : (0:ℚ) ≤ q := le_trans (by norm_num) h1
  rw [truncQ, if_pos h0]
  have h2030 : ⌊(2030:ℚ)⌋ = 2030 := by
    rw [show ((2030:ℚ)) = ((2030:ℤ):ℚ) by norm_num]
    exact Int.floor_intCast 2030
  constructor
  · exact Int.le_floor.mpr (by exact_mod_cast h1)
  · rw [← h2030]
    exact Int.floor_le_floor h2
  
/-- The year appearing on a year row lies in [1980, 2030]. -/
theorem yearOfCell_bounds {c : Cell} (h : isYearCell c = true) :
    1980 ≤ yearOfCell c ∧ yearOfCell c ≤ 2030 := by
  obtain ⟨q, hc, h1, h2⟩ := isYearCell_spec h
  rw [hc, yearOfCell]
  exact truncQ_year_bounds h1 h2

/-- Every record produced by the `validate_correct` scan comes from a year
row of the scanned grid. -/
theorem mem_loadCorrectAux {rec : RefRecord} :
    ∀ (b : Bool) (g : List Row), rec ∈ loadCorrectAux b g →
      ∃ row ∈ g, isYearCell (getCell row 0) = true ∧
        rec ∈ emitYear (yearOfCell (getCell row 0)) row := by
  intro b g
  induction g generalizing b with
  | nil => intro h; exact absurd h (List.not_mem_nil rec)
  | cons r rs ih =>
    intro h
    rw [loadCorrectAux] at h
    by_cases hy : isYearCell (getCell r 0) = true
    · rw [if_pos hy] at h
      rcases List.mem_append.mp h with h1 | h2
      · exact ⟨r, List.mem_cons_self r rs, hy, h1⟩
      · obtain ⟨row, hrow, hy2, hmem⟩ := ih true h2
        exact ⟨row, List.mem_cons_of_mem r hrow, hy2, hmem⟩
    · rw [if_neg hy] at h
      by_cases ht : (b && isTermCell (getCell r 0)) = true
      · rw [if_pos ht] at h
        exact absurd h (List.not_mem_nil rec)
      · rw [if_neg ht] at h
        obtain ⟨row, hrow, hy2, hmem⟩ := ih b h
        exact ⟨row, List.mem_cons_of_mem r hrow, hy2, hmem⟩

/-- A record in a successful month scan of the `full_validation`
extractor carries the scanned year and one of the scanned month
positions. -/
theorem mem_emitMonthsFull {y : Int} {row : Row} {rec : RefRecord} :
    ∀ (ms : List Nat) (l : List RefRecord), emitMonthsFull y row ms = Except.ok l →
      rec ∈ l → rec.year = y ∧ rec.month ∈ ms := by
  intro ms
  induction ms with
  | nil =>
    intro l h hrec
    cases h
    exact absurd hrec (List.not_mem_nil rec)
  | cons m ms ih =>
    intro l h hrec
    rw [emitMonthsFull] at h
    cases hc : getCell row m with
    | nan =>
      rw [hc] at h
      obtain ⟨hy, hm⟩ := ih l h hrec
      exact ⟨hy, List.mem_cons_of_mem m hm⟩
    | num q =>
      rw [hc] at h
      cases hrest : emitMonthsFull y row ms with
      | ok l2 =>
        rw [hrest] at h
        cases h
        rcases List.mem_cons.mp hrec with h1 | h2
        · subst h1
          exact ⟨rfl, List.mem_cons_self m ms⟩
        · obtain ⟨hy, hm⟩ := ih l2 hrest h2
          exact ⟨hy, List.mem_cons_of_mem m hm⟩
      | error e =>
        rw [hrest] at h
        cases h
    | text s =>
      rw [hc] at h
      cases h

/-- Every record of a successful `full_validation` scan comes from a year
row of the grid. -/
theorem mem_loadFullAux {rec : RefRecord} :
    ∀ (g : List Row) (l : List RefRecord), loadFullAux g = Except.ok l → rec ∈ l →
      ∃ row ∈ g, isYearCell (getCell row 0) = true ∧
        ∃ l2, emitMonthsFull (yearOfCell (getCell row 0)) row monthIdxs = Except.ok l2
          ∧ rec ∈ l2 := by
  intro g
  induction g with
  | nil =>
    intro l h hrec
    cases h
    exact absurd hrec (List.not_mem_nil rec)
  | cons r rs ih =>
    intro l h hrec
    rw [loadFullAux] at h
    by_cases hy : isYearCell (getCell r 0) = true
    · rw [if_pos hy] at h
      cases hx : emitMonthsFull (yearOfCell (getCell r 0)) r monthIdxs with
      | ok xs =>
        cases hr : loadFullAux rs with
        | ok ys =>
          rw [hx, hr] at h
          cases h
          rcases List.mem_append.mp hrec with h1 | h2
          · exact ⟨r, List.mem_cons_self r rs, hy, xs, hx, h1⟩
          · obtain ⟨row, hrow, hy2, l2, hl2, hmem⟩ := ih ys hr h2
            exact ⟨row, List.mem_cons_of_mem r hrow, hy2, l2, hl2, hmem⟩
        | error e =>
          rw [hx, hr] at h
          cases h
      | error e =>
        rw [hx] at h
        cases h
    · rw [if_neg hy] at h
      obtain ⟨row, hrow, hy2, l2, hl2, hmem⟩ := ih l h hrec
      exact ⟨row, List.mem_cons_of_mem r hrow, hy2, l2, hl2, hmem⟩

/-- Once the section has been entered (flag set or a year row already
scanned), everything after a terminator row is dead: the scan output does
not depend on the rows behind the terminator. -/
theorem loadCorrectAux_stop :
    ∀ (pre : List Row) (b : Bool) (r : Row) (post : List Row),
      isTermCell (getCell r 0) = true →
      (b = true ∨ pre.any (fun x => isYearCell (getCell x 0)) = true) →
      loadCorrectAux b (pre ++ r :: post) = loadCorrectAux b (pre ++ [r]) := by
  intro pre
  induction pre with
  | nil =>
    intro b r post hterm hb
    have hb' : b = true := by
      rcases hb with h | h
      · exact h
      · exact absurd h (by simp)
    subst hb'
    have hyr : isYearCell (getCell r 0) = false := by
      cases r0 : getCell r 0 with
      | text s => rfl
      | nan => rfl
      | num q =>
        rw [r0] at hterm
        exact absurd hterm (by simp [isTermCell])
    simp [loadCorrectAux, hyr, hterm]
  | cons x xs ih =>
    intro b r post hterm hb
    simp only [List.cons_append, loadCorrectAux, List.append_eq]
    by_cases hy : isYearCell (getCell x 0) = true
    · rw [if_pos hy, if_pos hy, ih true r post hterm (Or.inl rfl)]
    · rw [if_neg hy, if_neg hy]
      by_cases ht : (b && isTermCell (getCell x 0)) = true
      · rw [if_pos ht, if_pos ht]
      · rw [if_neg ht, if_neg ht]
        refine ih b r post hterm ?_
        rcases hb with h | h
        · exact Or.inl h
        · refine Or.inr ?_
          have : isYearCell (getCell x 0) = false := by
            cases hxx : isYearCell (getCell x 0)
            · rfl
            · exact absurd hxx hy
          simpa [this] using h

/-- C1 (amended): in `validate_correct.load_excel_max_close`, once a year
row has been scanned (the section is entered), a row whose first cell
strips to the terminator marker stops the scan: the rows behind it — year
rows included — contribute nothing to the output. (`full_validation`'s
extractor of the same name has no terminator handling; see the
counterexample.) -/
theorem C1_thm (pre : List Row) (r : Row) (post : List Row)
    (hterm : isTermCell (getCell r 0) = true)
    (hentered : pre.any (fun x => isYearCell (getCell x 0)) = true) :
    load_excel_max_close_correct (pre ++ r :: post) =
      load_excel_max_close_correct (pre ++ [r]) :=
  loadCorrectAux_stop pre false r post hterm (Or.inr hentered)

/-- C1 counterexample: on a grid with a second year-row section behind
the terminator row, `full_validation.load_excel_max_close` emits the
(2001, 1, 7) record from behind the terminator, unlike the
`validate_correct` variant. -/
theorem C1_cex :
    load_excel_max_close_full gTwoSections = Except.ok [⟨2000, 1, 5⟩, ⟨2001, 1, 7⟩]
  ∧ isTermCell (getCell rowGT 0) = true
  ∧ load_excel_max_close_correct gTwoSections = [⟨2000, 1, 5⟩] :=
  ⟨by rfl, by decide, by decide⟩

/-- C1 witness: the amended theorem applied to the two-section fixture. -/
theorem C1_wit :
    load_excel_max_close_correct (preSection ++ rowGT :: postSection) =
      load_excel_max_close_correct (preSection ++ [rowGT]) :=
  C1_thm preSection rowGT postSection (by decide) (by decide)

/-- C8 (amended): `validate_correct.load_excel_max_close` is total and
skips missing or non-numeric cells: a month column that nowhere holds a
number contributes no record. (`full_validation`'s variant instead raises
`ValueError` on non-numeric text cells; see the counterexample.) -/
theorem C8_thm (g : List Row) (m : Nat)
    (hm : ∀ row ∈ g, Cell.isNum (getCell row m) = false) :
    ∀ rec ∈ load_excel_max_close_correct g, rec.month ≠ m := by
  intro rec hrec heq
  obtain ⟨row, hrow, _, hmem⟩ := mem_loadCorrectAux false g hrec
  obtain ⟨_, _, _, hcell⟩ := mem_emitYear hmem
  have hnum := hm row hrow
  rw [heq] at hcell
  rw [hcell] at hnum
  exact absurd hnum (by simp [Cell.isNum])

/-- C8 counterexample: `full_validation.load_excel_max_close` raises
`ValueError` (is not total) on a year row holding non-numeric text in a
month column. -/
theorem C8_cex :
    load_excel_max_close_full [[Cell.num 2000, Cell.text strA]] =
      Except.error (floatErrMsg strA) := by rfl

/-- C8 witness: on the fixture whose month-1 cell is text, the record
emitted for the numeric month-2 cell does not sit in month 1. -/
theorem C8_wit : (RefRecord.mk 2000 2 5).month ≠ 1 :=
  C8_thm gTextCell 1 (by decide) ⟨2000, 2, 5⟩ (by decide)

/-- C9: every record emitted by reference-series extraction — by the
`validate_correct` scan, and by the `full_validation` scan whenever it
succeeds — has its year in [1980, 2030] and its month in [1, 12]. -/
theorem C9_thm (g : List Row) :
    (∀ rec ∈ load_excel_max_close_correct g,
        1980 ≤ rec.year ∧ rec.year ≤ 2030 ∧ 1 ≤ rec.month ∧ rec.month ≤ 12)
  ∧ (∀ l, load_excel_max_close_full g = Except.ok l →
      ∀ rec ∈ l, 1980 ≤ rec.year ∧ rec.year ≤ 2030 ∧ 1 ≤ rec.month ∧ rec.month ≤ 12) := by
  constructor
  · intro rec hrec
    obtain ⟨row, _, hy, hmem⟩ := mem_loadCorrectAux false g hrec
    obtain ⟨hyear, hm1, hm2, _⟩ := mem_emitYear hmem
    obtain ⟨hy1, hy2⟩ := yearOfCell_bounds hy
    rw [hyear]
    exact ⟨hy1, hy2, hm1, hm2⟩
  · intro l hl rec hrec
    obtain ⟨row, _, hy, l2, hl2, hmem⟩ := mem_loadFullAux g l hl hrec
    obtain ⟨hyear, hmonth⟩ := mem_emitMonthsFull monthIdxs l2 hl2 hmem
    obtain ⟨hy1, hy2⟩ := yearOfCell_bounds hy
    rw [monthIdxs] at hmonth
    have hmr := List.mem_range'_1.mp hmonth
    rw [hyear]
    exact ⟨hy1, hy2, hmr.1, by omega⟩

/-- C9 witness: the bounds, instantiated on the record extracted from the
two-section fixture. -/
theorem C9_wit :
    1980 ≤ (RefRecord.mk 2000 1 5).year ∧ (RefRecord.mk 2000 1 5).year ≤ 2030
  ∧ 1 ≤ (RefRecord.mk 2000 1 5).month ∧ (RefRecord.mk 2000 1 5).month ≤ 12 :=
  (C9_thm gTwoSections).1 ⟨2000, 1, 5⟩ (by decide)

/-- C10: `compare_values` returns `None` exactly when at least one input
is missing (NaN), and returns a boolean whenever both are present. -/
theorem C10_thm (e f : Option ℚ) (t : ℚ) :
    (compare_values e f t = none ↔ e = none ∨ f = none)
  ∧ (compare_values e f t).isSome = (e.isSome && f.isSome) := by
  cases e with
  | none => simp [compare_values]
  | some a =>
    cases f with
    | none => simp [compare_values]
    | some b =>
      by_cases ha : a = 0 <;> simp [compare_values, ha]

/-- C3 (amended): `compare_values` special-cases a zero reference —
match exactly when the computed value is zero, no division evaluated —
but the `pct_diff` classification of both `validate_ticker` functions
never classifies a zero-reference period as a match: `0/0` yields NaN and
`x/0` yields +inf under pandas, both of which fail every `< tolerance`
test, so even computed = reference = 0 is a mismatch there. -/
theorem C3_thm (c tol : ℚ) :
    compare_values (some 0) (some c) tol = some (decide (c = 0))
  ∧ tolMatchB tol (c, 0) = false := by
  constructor
  · simp [compare_values]
  · by_cases hc : c = 0 <;>
      simp [tolMatchB, pct_diff_pandas, pvalLt, hc, sub_zero, abs_eq_zero]

/-- C3 counterexample: a joined period with reference 0 and computed 0 is
counted as a mismatch by `full_validation.validate_ticker` (0 matches out
of 1), where the claim demands a match. -/
theorem C3_cex :
    innerJoin [⟨2020, 1, 0⟩] [⟨2020, 1, 0⟩] = [(0, 0)]
  ∧ validate_ticker_full [⟨2020, 1, 0⟩] [⟨2020, 1, 0⟩] = ⟨"FAIL", 0, 1⟩ := by
  constructor
  · rfl
  · norm_num [validate_ticker_full, innerJoin, matchPct, matchCount, tolMatchB,
      pct_diff_pandas, pvalLt, List.filter]

/-- C2 (amended): for every non-zero reference value, `compare_values`
classifies with less-or-equal on the relative difference over the
absolute reference — a relative difference exactly equal to its tolerance
is a match there; the per-period classifications of
`full_validation.validate_ticker` (0.1% tolerance) and
`validate_correct.validate_ticker` (1% tolerance) divide by the signed
reference, so for a positive reference they are strict-less-than
comparisons of the relative difference, while for a negative reference
the `pct_diff` is non-positive and every period is classified as a match
regardless of the discrepancy. -/
theorem C2_thm (c e tol : ℚ) (hne : e ≠ 0) :
    (0 < e →
      (tolMatchB (1/10) (c, e) = true ↔ |c - e| / |e| < 1/1000)
      ∧ (tolMatchB 1 (c, e) = true ↔ |c - e| / |e| < 1/100))
  ∧ (e < 0 → tolMatchB (1/10) (c, e) = true ∧ tolMatchB 1 (c, e) = true)
  ∧ (compare_values (some e) (some c) tol = some true ↔ |e - c| / |e| ≤ tol) := by
  refine ⟨?_, ?_, ?_⟩
  · intro he
    have habs : |e| = e := abs_of_pos he
    have key : ∀ t : ℚ, |c - e| / e < t / 100 ↔ |c - e| / e * 100 < t := fun t =>
      lt_div_iff₀ (by norm_num : (0:ℚ) < 100)
    constructor
    · simp only [tolMatchB, pct_diff_pandas, if_neg hne, pvalLt, decide_eq_true_eq, habs]
      rw [show (1:ℚ)/1000 = (1/10)/100 by norm_num]
      exact (key (1/10)).symm
    · simp only [tolMatchB, pct_diff_pandas, if_neg hne, pvalLt, decide_eq_true_eq, habs]
      rw [show (1:ℚ)/100 = 1/100 by norm_num]
      exact (key 1).symm
  · intro hneg
    have hds : |c - e| / e ≤ 0 :=
      div_nonpos_of_nonneg_of_nonpos (abs_nonneg _) (le_of_lt hneg)
    constructor
    · simp only [tolMatchB, pct_diff_pandas, if_neg hne, pvalLt]
      exact decide_eq_true (by linarith : |c - e| / e * 100 < 1/10)
    · simp only [tolMatchB, pct_diff_pandas, if_neg hne, pvalLt]
      exact decide_eq_true (by linarith : |c - e| / e * 100 < 1)
  · simp [compare_values, hne]

/-- C2 counterexample: with reference 100, computed 98 and the default 2%
tolerance, the relative difference equals the tolerance exactly, yet
`compare_values` classifies the pair as a match — the claim demands a
mismatch at equality in every comparison function. Moreover, at reference
−100 and computed 0 the relative difference is 1 (one hundred percent),
yet both `validate_ticker` classifiers count the period as a match,
because the code divides by the signed reference. -/
theorem C2_cex :
    (compare_values (some 100) (some 98) (2/100) = some true
      ∧ |(100:ℚ) - 98| / |(100:ℚ)| = 2/100)
  ∧ (tolMatchB (1/10) (0, -100) = true
      ∧ tolMatchB 1 (0, -100) = true
      ∧ |(0:ℚ) - (-100)| / |(-100:ℚ)| = 1) := by
  refine ⟨⟨?_, by norm_num⟩, ?_, ?_, by norm_num⟩
  · norm_num [compare_values]
  · norm_num [tolMatchB, pct_diff_pandas, pvalLt]
  · norm_num [tolMatchB, pct_diff_pandas, pvalLt]

/-- C2 witness: the amended characterisation instantiated at reference
100 and computed 98 (positive branch and `compare_values`), and at
reference −100 and computed 0 (negative branch). -/
theorem C2_wit :
    ((100:ℚ) ≠ 0 ∧ (-100:ℚ) ≠ 0 ∧ (0:ℚ) < 100 ∧ (-100:ℚ) < 0)
  ∧ (tolMatchB (1/10) (98, 100) = true ↔ |(98:ℚ) - 100| / |(100:ℚ)| < 1/1000)
  ∧ (tolMatchB (1/10) (0, -100) = true ∧ tolMatchB 1 (0, -100) = true)
  ∧ (compare_values (some 100) (some 98) (2/100) = some true ↔
      |(100:ℚ) - 98| / |(100:ℚ)| ≤ 2/100) :=
  ⟨⟨by norm_num, by norm_num, by norm_num, by norm_num⟩,
   ((C2_thm 98 100 (2/100) (by norm_num)).1 (by norm_num)).1,
   (C2_thm 0 (-100) (1/10) (by norm_num)).2.1 (by norm_num),
   (C2_thm 98 100 (2/100) (by norm_num)).2.2⟩

/-- Conditional-status helper: picking between two strings never yields a
third one. -/
theorem ite_str_eq_neither {p : Prop} [inst : Decidable p] {s t u : String}
    (h1 : s ≠ u) (h2 : t ≠ u) : ((if p then s else t) = u) ↔ False := by
  by_cases hp : p
  · simp [hp, h1]
  · simp [hp, h2]

/-- Conditional-status helper: the chosen string is the first branch iff
the condition holds (when the branches differ). -/
theorem ite_str_eq_fst {p : Prop} [inst : Decidable p] {s t u : String}
    (h1 : s = u) (h2 : t ≠ u) : ((if p then s else t) = u) ↔ p := by
  by_cases hp : p
  · simp [hp, h1]
  · simp [hp, h2]

/-- Conditional-status helper: the chosen string is the second branch iff
the condition fails (when the branches differ). -/
theorem ite_str_eq_snd {p : Prop} [inst : Decidable p] {s t u : String}
    (h1 : s ≠ u) (h2 : t = u) : ((if p then s else t) = u) ↔ ¬ p := by
  by_cases hp : p
  · simp [hp, h1]
  · simp [hp, h2]

/-- C6 (amended): each `validate_ticker` reports its empty-join verdict
iff the inner join on (year, month) is empty — labelled `NO_OVERLAP` in
`validate_correct` but `NO_MATCH` in `full_validation` — with counts
reported as 0/0; on a non-empty join the verdict is `PASS` iff the match
percentage reaches the hard-coded threshold (95 resp. 99), and otherwise
`CHECK` in `validate_correct` resp. `FAIL` in `full_validation`. -/
theorem C6_thm (ours : List MRec) (excel : List RefRecord) :
    ((validate_ticker_correct ours excel).status = "NO_OVERLAP" ↔ innerJoin ours excel = [])
  ∧ ((validate_ticker_correct ours excel).status = "PASS" ↔
      innerJoin ours excel ≠ [] ∧ matchPct (innerJoin ours excel) 1 ≥ 95)
  ∧ ((validate_ticker_correct ours excel).status = "CHECK" ↔
      innerJoin ours excel ≠ [] ∧ matchPct (innerJoin ours excel) 1 < 95)
  ∧ ((validate_ticker_full ours excel).status = "NO_MATCH" ↔ innerJoin ours excel = [])
  ∧ ((validate_ticker_full ours excel).status = "PASS" ↔
      innerJoin ours excel ≠ [] ∧ matchPct (innerJoin ours excel) (1/10) ≥ 99)
  ∧ ((validate_ticker_full ours excel).status = "FAIL" ↔
      innerJoin ours excel ≠ [] ∧ matchPct (innerJoin ours excel) (1/10) < 99)
  ∧ (innerJoin ours excel = [] →
      validate_ticker_correct ours excel = ⟨"NO_OVERLAP", 0, 0⟩
      ∧ validate_ticker_full ours excel = ⟨"NO_MATCH", 0, 0⟩) := by
  by_cases hj : innerJoin ours excel = []
  · simp [validate_ticker_correct, validate_ticker_full, hj]
  · have hcs : (validate_ticker_correct ours excel).status =
        (if matchPct (innerJoin ours excel) 1 ≥ 95 then "PASS" else "CHECK") := by
      rw [validate_ticker_correct, if_neg hj]
    have hfs : (validate_ticker_full ours excel).status =
        (if matchPct (innerJoin ours excel) (1/10) ≥ 99 then "PASS" else "FAIL") := by
      rw [validate_ticker_full, if_neg hj]
    rw [hcs, hfs]
    refine ⟨?_, ?_, ?_, ?_, ?_, ?_, fun h => absurd h hj⟩
    · rw [ite_str_eq_neither (by decide) (by decide)]
      exact iff_of_false not_false hj
    · rw [ite_str_eq_fst rfl (by decide)]
      exact ⟨fun h => ⟨hj, h⟩, fun h => h.2⟩
    · rw [ite_str_eq_snd (by decide) rfl]
      exact ⟨fun h => ⟨hj, not_le.mp h⟩, fun h => not_le.mpr h.2⟩
    · rw [ite_str_eq_neither (by decide) (by decide)]
      exact iff_of_false not_false hj
    · rw [ite_str_eq_fst rfl (by decide)]
      exact ⟨fun h => ⟨hj, h⟩, fun h => h.2⟩
    · rw [ite_str_eq_snd (by decide) rfl]
      exact ⟨fun h => ⟨hj, not_le.mp h⟩, fun h => not_le.mpr h.2⟩

/-- C6 counterexample: the empty-join verdict of
`full_validation.validate_ticker` is the string `NO_MATCH`, not
`NO_OVERLAP`, and the non-pass verdict of
`validate_correct.validate_ticker` is `CHECK`, not `FAIL`. -/
theorem C6_cex :
    validate_ticker_full [] [] = ⟨"NO_MATCH", 0, 0⟩
  ∧ validate_ticker_correct [⟨2020, 1, 10⟩] [⟨2020, 1, 100⟩] = ⟨"CHECK", 0, 1⟩
  ∧ "NO_MATCH" ≠ "NO_OVERLAP" ∧ "CHECK" ≠ "FAIL" := by
  refine ⟨by rfl, ?_, by decide, by decide⟩
  norm_num [validate_ticker_correct, innerJoin, matchPct, matchCount, tolMatchB,
    pct_diff_pandas, pvalLt, List.filter]

/-- C6 witness: the 0/0 reporting of the amended theorem, instantiated on
disjoint (empty) inputs. -/
theorem C6_wit :
    validate_ticker_correct [] [] = ⟨"NO_OVERLAP", 0, 0⟩
  ∧ validate_ticker_full [] [] = ⟨"NO_MATCH", 0, 0⟩ :=
  (C6_thm [] []).2.2.2.2.2.2 (by rfl)

/-- Chronological order is reflexive. -/
theorem dateLeB_refl (d : SimpleDate) : dateLeB d d = true :=
  decide_eq_true (Or.inr ⟨rfl, Or.inr ⟨rfl, le_refl d.day⟩⟩)

/-- In a date-sorted group, every bar's date is bounded by the date of
the group's final bar. -/
theorem pairwise_dateLe_getLastD :
    ∀ (b : DailyBar) (r : List DailyBar),
      List.Pairwise (fun x y => dateLeB x.date y.date = true) (b :: r) →
      ∀ y ∈ b :: r, dateLeB y.date ((r.getLastD b).date) = true := by
  intro b r
  induction r generalizing b with
  | nil =>
    intro _ y hy
    rcases List.mem_cons.mp hy with h | h
    · subst h
      exact dateLeB_refl _
    · exact absurd h (List.not_mem_nil y)
  | cons c r2 ih =>
    intro hp y hy
    rcases List.pairwise_cons.mp hp with ⟨hb, hp2⟩
    rw [List.getLastD_cons]
    rcases List.mem_cons.mp hy with h | h
    · subst h
      exact hb _ (List.getLastD_mem_cons r2 c)
    · exact ih c hp2 y h

/-- C4: the rollup emits exactly one monthly record per distinct
(ticker, year, month) key present in the input, and on each record
`close_max` / `high_max` / `low_min` are the maximum close, maximum high
and minimum low of the period's bars, `volume_total` their volume sum,
and `trading_days` their count. -/
theorem C4_thm (bars : List DailyBar) (k : String × Int × Nat) :
    ((aggregate_to_monthly bars).filter fun a => decide (aggKey a = k)).length =
      (if groupBars bars k = [] then 0 else 1)
  ∧ ∀ a ∈ aggregate_to_monthly bars,
      (a.close_max ∈ (groupBars bars (aggKey a)).map (fun x => x.close)
        ∧ ∀ x ∈ groupBars bars (aggKey a), x.close ≤ a.close_max)
      ∧ (a.high_max ∈ (groupBars bars (aggKey a)).map (fun x => x.high)
        ∧ ∀ x ∈ groupBars bars (aggKey a), x.high ≤ a.high_max)
      ∧ (a.low_min ∈ (groupBars bars (aggKey a)).map (fun x => x.low)
        ∧ ∀ x ∈ groupBars bars (aggKey a), a.low_min ≤ x.low)
      ∧ a.volume_total = ((groupBars bars (aggKey a)).map (fun x => x.volume)).sum
      ∧ a.trading_days = (groupBars bars (aggKey a)).length := by
  constructor
  · have hf : ∀ k2 a, monthlyFor bars k2 = some a → aggKey a = k2 := by
      intro k2 a h
      cases hgrp : groupBars bars k2 with
      | nil =>
        rw [monthlyFor, hgrp] at h
        cases h
      | cons b rest =>
        rw [monthlyFor, hgrp] at h
        cases Option.some.inj h
        have hb : b ∈ groupBars bars k2 := by
          rw [hgrp]
          exact List.mem_cons_self b rest
        rw [aggKey_reduceGroup]
        exact of_decide_eq_true (List.mem_filter.mp hb).2
    rw [aggregate_to_monthly, length_filter_filterMap_key (monthlyFor bars) aggKey hf k
      ((bars.map barKey).dedup) (List.nodup_dedup _)]
    by_cases hg : groupBars bars k = []
    · rw [if_pos hg, if_neg]
      rintro ⟨hk, _⟩
      exact (mem_keys_iff bars k).mp hk hg
    · rw [if_neg hg, if_pos]
      exact ⟨(mem_keys_iff bars k).mpr hg, (monthlyFor_isSome bars k).mpr hg⟩
  · intro a ha
    obtain ⟨b, rest, hgrp, haeq⟩ := mem_aggregate bars a ha
    subst haeq
    rw [hgrp]
    simp only [reduceGroup, List.map_cons]
    refine ⟨⟨?_, ?_⟩, ⟨?_, ?_⟩, ⟨?_, ?_⟩, by trivial, by trivial⟩
    · rcases foldl_max_cases (rest.map fun x => x.close) b.close with h | h
      · rw [h]
        exact List.mem_cons_self _ _
      · exact List.mem_cons_of_mem _ h
    · intro x hx
      rcases List.mem_cons.mp hx with h | h
      · subst h
        exact le_foldl_max _ _
      · exact mem_le_foldl_max _ _ _ (List.mem_map_of_mem _ h)
    · rcases foldl_max_cases (rest.map fun x => x.high) b.high with h | h
      · rw [h]
        exact List.mem_cons_self _ _
      · exact List.mem_cons_of_mem _ h
    · intro x hx
      rcases List.mem_cons.mp hx with h | h
      · subst h
        exact le_foldl_max _ _
      · exact mem_le_foldl_max _ _ _ (List.mem_map_of_mem _ h)
    · rcases foldl_min_cases (rest.map fun x => x.low) b.low with h | h
      · rw [h]
        exact List.mem_cons_self _ _
      · exact List.mem_cons_of_mem _ h
    · intro x hx
      rcases List.mem_cons.mp hx with h | h
      · subst h
        exact foldl_min_le _ _
      · exact foldl_min_le_mem _ _ _ (List.mem_map_of_mem _ h)

/-- C4 witness: the spec's example month — January 2020 closes
10, 12, 9, 15 on four trading days — instantiating the field
characterisation on the produced record (close_max 15, four days). -/
theorem C4_wit :
    agg4 ∈ aggregate_to_monthly bars4
  ∧ agg4.close_max ∈ (groupBars bars4 (aggKey agg4)).map (fun x => x.close)
  ∧ bar3.close ≤ agg4.close_max
  ∧ agg4.volume_total = ((groupBars bars4 (aggKey agg4)).map (fun x => x.volume)).sum
  ∧ agg4.trading_days = (groupBars bars4 (aggKey agg4)).length :=
  have h := (C4_thm bars4 (aggKey agg4)).2 agg4 (by decide)
  ⟨by decide, h.1.1, h.1.2 bar3 (by decide), h.2.2.2.1, h.2.2.2.2⟩

/-- C5 (amended): the rollup performs no defensive sort — each group is
reduced in input row order, so `open_first` / `close_last` are the open
of the group's first input row and the close of its last input row; when
the input batch is date-sorted these are the chronologically earliest and
latest bars of the period. -/
theorem C5_thm (bars : List DailyBar)
    (hs : List.Pairwise (fun x y => dateLeB x.date y.date = true) bars) :
    ∀ a ∈ aggregate_to_monthly bars, ∀ b r, groupBars bars (aggKey a) = b :: r →
      a.open_first = b.open_
      ∧ (∀ y ∈ b :: r, dateLeB b.date y.date = true)
      ∧ a.close_last = (r.getLastD b).close
      ∧ (∀ y ∈ b :: r, dateLeB y.date ((r.getLastD b).date) = true) := by
  intro a ha b r hgrp
  obtain ⟨b2, r2, hgrp2, haeq⟩ := mem_aggregate bars a ha
  rw [hgrp] at hgrp2
  cases hgrp2
  subst haeq
  have hsub : (b :: r).Sublist bars := by
    rw [← hgrp]
    exact List.filter_sublist bars
  have hsg := List.Pairwise.sublist hsub hs
  rcases List.pairwise_cons.mp hsg with ⟨hb, _⟩
  refine ⟨rfl, ?_, rfl, pairwise_dateLe_getLastD b r hsg⟩
  intro y hy
  rcases List.mem_cons.mp hy with h | h
  · subst h
    exact dateLeB_refl _
  · exact hb y h

/-- C5 counterexample: on an input listing January 2 before January 1,
the rollup reports `open_first = 20` (the open of the first input row)
although the chronologically earliest bar of the period opens at 10, and
`close_last = 10` (the close of the last input row) although the
chronologically latest bar closes at 20. -/
theorem C5_cex :
    aggregate_to_monthly [bJan2, bJan1] = [⟨"A", 2020, 1, 20, 20, 10, 20, 10, 0, 2⟩]
  ∧ dateLeB bJan1.date bJan2.date = true
  ∧ ¬ dateLeB bJan2.date bJan1.date = true
  ∧ bJan1.open_ = 10 ∧ (10:ℚ) ≠ 20 :=
  ⟨by decide, by decide, by decide, by decide, by decide⟩

/-- C5 witness: the amended theorem instantiated on the date-sorted
example month. -/
theorem C5_wit :
    agg4.open_first = bar1.open_
  ∧ dateLeB bar1.date bar4.date = true
  ∧ agg4.close_last = ([bar2, bar3, bar4].getLastD bar1).close
  ∧ dateLeB bar1.date (([bar2, bar3, bar4].getLastD bar1).date) = true :=
  have h := C5_thm bars4 (by decide) agg4 (by decide) bar1 [bar2, bar3, bar4] (by decide)
  ⟨h.1, h.2.1 bar4 (by decide), h.2.2.1, h.2.2.2 bar1 (by decide)⟩

/-- C7 (amended): under the DailyBar invariant strengthened with per-bar
OHLC consistency (`low ≤ high` and `close ≤ high`, in addition to
positive prices and non-negative volume), every produced monthly record
satisfies `low_min ≤ high_max`, `0 ≤ close_max ≤ high_max`, and
`trading_days` equals the number of contributing bars. Positivity alone
does not suffice; see the counterexample. -/
theorem C7_thm (bars : List DailyBar)
    (h : ∀ b ∈ bars, 0 < b.open_ ∧ 0 < b.high ∧ 0 < b.low ∧ 0 < b.close ∧ 0 ≤ b.volume
          ∧ b.low ≤ b.high ∧ b.close ≤ b.high) :
    ∀ a ∈ aggregate_to_monthly bars,
      a.low_min ≤ a.high_max ∧ a.close_max ≤ a.high_max ∧ 0 ≤ a.close_max
      ∧ a.trading_days = (groupBars bars (aggKey a)).length := by
  intro a ha
  obtain ⟨b, rest, hgrp, haeq⟩ := mem_aggregate bars a ha
  have hmem : ∀ x ∈ b :: rest, x ∈ bars := by
    intro x hx
    rw [← hgrp] at hx
    exact mem_of_mem_groupBars hx
  subst haeq
  have hhigh_ub : ∀ x ∈ b :: rest, x.high ≤ (reduceGroup b rest).high_max := by
    intro x hx
    rcases List.mem_cons.mp hx with h1 | h1
    · subst h1
      exact le_foldl_max _ _
    · exact mem_le_foldl_max _ _ _ (List.mem_map_of_mem _ h1)
  have hbself := h b (hmem b (List.mem_cons_self b rest))
  refine ⟨?_, ?_, ?_, ?_⟩
  · have h1 : (reduceGroup b rest).low_min ≤ b.low := foldl_min_le _ _
    exact le_trans h1 (le_trans hbself.2.2.2.2.2.1 (hhigh_ub b (List.mem_cons_self b rest)))
  · rcases foldl_max_cases (rest.map fun x => x.close) b.close with hc | hc
    · calc (reduceGroup b rest).close_max = b.close := hc
        _ ≤ b.high := hbself.2.2.2.2.2.2
        _ ≤ _ := hhigh_ub b (List.mem_cons_self b rest)
    · obtain ⟨x, hx, hxc⟩ := List.mem_map.mp hc
      have hxb := h x (hmem x (List.mem_cons_of_mem b hx))
      calc (reduceGroup b rest).close_max = x.close := hxc.symm
        _ ≤ x.high := hxb.2.2.2.2.2.2
        _ ≤ _ := hhigh_ub x (List.mem_cons_of_mem b hx)
  · exact le_trans (le_of_lt hbself.2.2.2.1) (le_foldl_max _ _)
  · rw [hgrp]
    rfl

/-- C7 counterexample: a single bar with every price positive but
`close = 10 > high = 5` (allowed by the claim's price-positivity
invariant) yields a monthly record with `close_max = 10 > high_max = 5`,
violating the claimed `high_max ≥ close_max`. -/
theorem C7_cex :
    (0 < barBad.open_ ∧ 0 < barBad.high ∧ 0 < barBad.low ∧ 0 < barBad.close
      ∧ 0 ≤ barBad.volume)
  ∧ aggregate_to_monthly [barBad] = [⟨"A", 2020, 1, 1, 5, 1, 10, 10, 0, 1⟩]
  ∧ ¬ ((10:ℚ) ≤ 5) :=
  ⟨by decide, by decide, by decide⟩

/-- C7 witness: the invariants instantiated on the example month's
record. -/
theorem C7_wit :
    agg4.low_min ≤ agg4.high_max ∧ agg4.close_max ≤ agg4.high_max ∧ 0 ≤ agg4.close_max
  ∧ agg4.trading_days = (groupBars bars4 (aggKey agg4)).length :=
  C7_thm bars4 (by decide) agg4 (by decide)
